import Mathlib

/-!
Shallow embedding of the collaborative note-sharing server core
(NoteService, SocketService and the TypeORM entities Note, NoteShare,
NoteRevision, User).  Rows are Lean structures; the relational store is a
record of row lists; repository save/delete calls become explicit list
updates; generated uuid primary keys become a counter-driven Nat id;
thrown errors become Except.error with the thrown message.
-/

namespace NoteApp

/-- Permission level of a share (enum SharePermission in the source). -/
inductive SharePermission
  | read
  | edit
deriving DecidableEq, Repr

/-- Row of the notes table (entity Note).  The version counter and content
are the fields the revision ledger tracks. -/
structure Note where
  id : Nat
  title : String
  content : String
  isArchived : Bool
  ownerId : Nat
  version : Nat
deriving DecidableEq, Repr

/-- Row of the note_shares table (entity NoteShare).  sharedWithId and
shareToken are nullable columns, hence Option. -/
structure NoteShare where
  id : Nat
  noteId : Nat
  sharedWithId : Option Nat
  email : Option String
  permission : SharePermission
  isAccepted : Bool
  isRevoked : Bool
  shareToken : Option String
deriving DecidableEq, Repr

/-- Row of the note_revisions table (entity NoteRevision). -/
structure NoteRevision where
  id : Nat
  content : String
  version : Nat
  noteId : Nat
  userId : Nat
deriving DecidableEq, Repr

/-- Row of the users table (entity User), reduced to the fields the note
and share services read. -/
structure User where
  id : Nat
  name : Option String
  email : String
deriving DecidableEq, Repr

/-- The relational store.  nextId drives generation of fresh primary keys
(uuid generation in the source). -/
structure DB where
  users : List User
  notes : List Note
  shares : List NoteShare
  revisions : List NoteRevision
  nextId : Nat
deriving DecidableEq, Repr

/-- noteRepository.findOne where id = noteId. -/
def findNote (db : DB) (noteId : Nat) : Option Note :=
  db.notes.find? (fun n => n.id == noteId)

/-- userRepository.findOne where id = userId. -/
def findUser (db : DB) (userId : Nat) : Option User :=
  db.users.find? (fun u => u.id == userId)

/-- userRepository.findOne where email = email. -/
def findUserByEmail (db : DB) (email : String) : Option User :=
  db.users.find? (fun u => u.email == email)

/-- The loaded shares relation of a note (relations: ["shares"]). -/
def sharesOfNote (db : DB) (noteId : Nat) : List NoteShare :=
  db.shares.filter (fun s => s.noteId == noteId)

/-- The loaded revisions of a note. -/
def revisionsOfNote (db : DB) (noteId : Nat) : List NoteRevision :=
  db.revisions.filter (fun r => r.noteId == noteId)

/-- noteShareRepository.findOne where shareToken = token. -/
def findShareByToken (db : DB) (token : String) : Option NoteShare :=
  db.shares.find? (fun s => s.shareToken == some token)

/-- noteShareRepository.findOne where id = shareId. -/
def findShareById (db : DB) (shareId : Nat) : Option NoteShare :=
  db.shares.find? (fun s => s.id == shareId)

/-- noteShareRepository.save of an existing row: replaces the row with the
same primary key. -/
def saveShare (db : DB) (s : NoteShare) : DB :=
  { db with shares := db.shares.map (fun x => if x.id == s.id then s else x) }

/-- noteRepository.save of an existing row. -/
def saveNote (db : DB) (n : Note) : DB :=
  { db with notes := db.notes.map (fun x => if x.id == n.id then n else x) }

/-- The share row that grants userId access, as scanned by getNoteById,
updateNote and restoreRevision:
shares.find(s => s.sharedWithId === userId && !s.isRevoked && s.isAccepted). -/
def accessShare (shares : List NoteShare) (userId : Nat) : Option NoteShare :=
  shares.find? (fun s => s.sharedWithId == some userId && !s.isRevoked && s.isAccepted)

/-- What getNoteById returns: the note entity with a permission attached
and its shares relation cleared (note.shares = [] before return). -/
structure LoadedNote where
  note : Note
  shares : List NoteShare
  permission : SharePermission
deriving DecidableEq, Repr

/-- NoteService.getNoteById: owner gets edit permission without consulting
shares; a non-owner needs an accepted, non-revoked share targeting them,
and receives that share of permission; otherwise a permission error. -/
def getNoteById (db : DB) (noteId userId : Nat) : Except String LoadedNote :=
  match findNote db noteId with
  | none => .error "Note not found"
  | some note =>
    if note.ownerId != userId then
      match accessShare (sharesOfNote db noteId) userId with
      | none => .error "You do not have permission to access this note"
      | some s => .ok { note := note, shares := [], permission := s.permission }
    else
      .ok { note := note, shares := [], permission := SharePermission.edit }

/-- The Matches predicate of claim C1: a share row granting userId
access. -/
def GrantsAccess (s : NoteShare) (userId : Nat) : Prop :=
  s.sharedWithId = some userId ∧ s.isAccepted = true ∧ s.isRevoked = false

instance (s : NoteShare) (userId : Nat) : Decidable (GrantsAccess s userId) := by
  unfold GrantsAccess; infer_instance

/-- The update payload of NoteService.updateNote (NoteUpdateInput): each
field optional. -/
structure NoteUpdateInput where
  title : Option String
  content : Option String
  isArchived : Option Bool
deriving DecidableEq, Repr

/-- Object.assign(note, updateData): every field present in the payload
overwrites the stored one, present-but-empty strings included. -/
def applyPatch (n : Note) (u : NoteUpdateInput) : Note :=
  { n with
    title := u.title.getD n.title
    content := u.content.getD n.content
    isArchived := u.isArchived.getD n.isArchived }

/-- Javascript truthiness of an optional string field: absent and the
empty string are both falsy. -/
def truthyStr : Option String → Bool
  | none => false
  | some s => s != ""

/-- NoteService.createNote: requires the owner to exist, inserts the note
at version 1, then inserts an initial revision carrying the initial
content at version 1. -/
def createNote (db : DB) (userId : Nat) (title content : String) :
    Except String (DB × Note) :=
  match findUser db userId with
  | none => .error "User not found"
  | some _ =>
    let note : Note :=
      { id := db.nextId, title := title, content := content,
        isArchived := false, ownerId := userId, version := 1 }
    let db1 : DB := { db with notes := db.notes ++ [note], nextId := db.nextId + 1 }
    let revision : NoteRevision :=
      { id := db1.nextId, content := content, version := 1,
        noteId := note.id, userId := userId }
    let db2 : DB :=
      { db1 with revisions := db1.revisions ++ [revision], nextId := db1.nextId + 1 }
    .ok (db2, note)

/-- NoteService.updateNote: owner or edit-share permission required; a
truthy content field that differs from the stored content first snapshots
the old content at the old version and bumps the version; then the patch
is applied by Object.assign and the note saved.  Returns the saved note
and the permission attached for the response. -/
def updateNote (db : DB) (noteId userId : Nat) (u : NoteUpdateInput) :
    Except String (DB × Note × SharePermission) :=
  match findNote db noteId with
  | none => .error "Note not found"
  | some note =>
    let isOwner : Bool := note.ownerId == userId
    let share := accessShare (sharesOfNote db noteId) userId
    let canEdit : Bool :=
      match share with
      | some s => s.permission == SharePermission.edit
      | none => false
    if !isOwner && !canEdit then
      .error "You do not have permission to edit this note"
    else
      let shouldRevise : Bool :=
        truthyStr u.content && u.content != some note.content
      let note1 := if shouldRevise then { note with version := note.version + 1 } else note
      let db1 : DB :=
        if shouldRevise then
          { db with
            revisions := db.revisions ++
              [{ id := db.nextId, content := note.content, version := note.version,
                 noteId := noteId, userId := userId }],
            nextId := db.nextId + 1 }
        else db
      let updated := applyPatch note1 u
      let db2 := saveNote db1 updated
      let permission :=
        match share with
        | some s => if isOwner then SharePermission.edit else s.permission
        | none => SharePermission.edit
      .ok (db2, updated, permission)

/-- The cascade steps of NoteService.deleteNote, in source order. -/
inductive CascadeStep
  | revisions
  | shares
  | note
deriving DecidableEq, Repr

/-- Outcome of deleteNote: the error thrown if any, the store state after
the steps that ran, and the successfully executed cascade steps in
order. -/
structure DeleteResult where
  err : Option String
  db : DB
  steps : List CascadeStep
deriving DecidableEq, Repr

/-- NoteService.deleteNote: access check through getNoteById, owner-only
guard, then delete revisions, then shares, then the note row; a storage
failure (modelled by the failsAt oracle) is caught and rethrown, aborting
the remaining steps. -/
def deleteNote (db : DB) (noteId userId : Nat) (failsAt : CascadeStep → Bool) :
    DeleteResult :=
  match getNoteById db noteId userId with
  | .error e => { err := some e, db := db, steps := [] }
  | .ok ln =>
    if ln.note.ownerId != userId then
      { err := some "Only the owner can delete this note", db := db, steps := [] }
    else if failsAt CascadeStep.revisions then
      { err := some "Failed to delete note: Database error", db := db, steps := [] }
    else
      let db1 : DB := { db with revisions := db.revisions.filter (fun r => !(r.noteId == noteId)) }
      if failsAt CascadeStep.shares then
        { err := some "Failed to delete note: Database error", db := db1,
          steps := [CascadeStep.revisions] }
      else
        let db2 : DB := { db1 with shares := db1.shares.filter (fun s => !(s.noteId == noteId)) }
        if failsAt CascadeStep.note then
          { err := some "Failed to delete note: Database error", db := db2,
            steps := [CascadeStep.revisions, CascadeStep.shares] }
        else
          let db3 : DB := { db2 with notes := db2.notes.filter (fun n => !(n.id == noteId)) }
          { err := none, db := db3,
            steps := [CascadeStep.revisions, CascadeStep.shares, CascadeStep.note] }

/-- Input of NoteService.shareNote. -/
structure ShareNoteInput where
  noteId : Nat
  email : String
  permission : SharePermission
deriving DecidableEq, Repr

/-- NoteService.shareNote: owner-only; creates a pending share carrying a
fresh token (uuidv4 in the source, passed here as freshToken), resolving
sharedWithId eagerly when a user with the target email already exists. -/
def shareNote (db : DB) (userId : Nat) (inp : ShareNoteInput) (freshToken : String) :
    Except String (DB × NoteShare) :=
  match getNoteById db inp.noteId userId with
  | .error e => .error e
  | .ok ln =>
    if ln.note.ownerId != userId then
      .error "Only the owner can share this note"
    else
      let targetUser := findUserByEmail db inp.email
      let share : NoteShare :=
        { id := db.nextId, noteId := inp.noteId,
          sharedWithId := targetUser.map (fun u => u.id),
          email := some inp.email, permission := inp.permission,
          isAccepted := false, isRevoked := false,
          shareToken := some freshToken }
      .ok ({ db with shares := db.shares ++ [share], nextId := db.nextId + 1 }, share)

/-- NoteService.acceptSharedNote: looks the share up by token, rejects
revoked, already-accepted, wrong-recipient and wrong-email cases, then
binds the recipient and sets isAccepted. -/
def acceptSharedNote (db : DB) (token : String) (userId : Nat) :
    Except String (DB × NoteShare) :=
  match findShareByToken db token with
  | none => .error "Invalid share token"
  | some share =>
    if share.isRevoked then .error "This share has been revoked"
    else if share.isAccepted then .error "This share has already been accepted"
    else if share.sharedWithId.isSome && share.sharedWithId != some userId then
      .error "This share was not intended for you"
    else
      match findUser db userId with
      | none => .error "User not found"
      | some user =>
        if share.email.isSome && share.email != some user.email then
          .error "This share was intended for a different email address"
        else
          let share1 := { share with sharedWithId := some userId, isAccepted := true }
          .ok (saveShare db share1, share1)

/-- NoteService.declineSharedNote: same guards as accept, then marks the
share revoked (decline is stored as the isRevoked flag) and binds the
recipient. -/
def declineSharedNote (db : DB) (token : String) (userId : Nat) :
    Except String DB :=
  match findShareByToken db token with
  | none => .error "Invalid share token"
  | some share =>
    if share.isRevoked then .error "This share has been revoked"
    else if share.isAccepted then
      .error "This share has already been accepted and cannot be declined"
    else if share.sharedWithId.isSome && share.sharedWithId != some userId then
      .error "This share was not intended for you"
    else
      match findUser db userId with
      | none => .error "User not found"
      | some user =>
        if share.email.isSome && share.email != some user.email then
          .error "This share was intended for a different email address"
        else
          let share1 := { share with isRevoked := true, sharedWithId := some userId }
          .ok (saveShare db share1)

/-- The payload of the share:updated event emitted by
SocketService.broadcastShareUpdate: the note id, share id, revoked flag,
the spread full share row, plus the minimal note info spliced into it. -/
structure ShareUpdatePayload where
  noteId : Nat
  shareId : Nat
  revoked : Bool
  share : NoteShare
  shareNoteTitle : String
deriving DecidableEq, Repr

/-- A socket emission requested by the note service: a message to a user
personal room (sendUserNotification) or a server-wide broadcast
(broadcastShareUpdate, io.emit). -/
inductive Emission
  | toUserRoom (userId : Nat) (message : String)
  | toAll (payload : ShareUpdatePayload)
deriving DecidableEq, Repr

/-- NoteService.revokeShare: share lookup, access check through
getNoteById, owner-only guard, then sets isRevoked and saves; when a
socket service is wired and the share has a bound recipient it notifies
the recipient and broadcasts share:updated to all clients, and when a
socket service is wired it also notifies the owner. -/
def revokeShare (db : DB) (shareId userId : Nat) (socketPresent : Bool) :
    Except String (DB × List Emission) :=
  match findShareById db shareId with
  | none => .error "Share not found"
  | some share =>
    match getNoteById db share.noteId userId with
    | .error e => .error e
    | .ok ln =>
      if ln.note.ownerId != userId then
        .error "Only the owner can revoke shares"
      else
        let share1 := { share with isRevoked := true }
        let db1 := saveShare db share1
        let recipientEmissions :=
          match share1.sharedWithId with
          | some recipient =>
            if socketPresent then
              [Emission.toUserRoom recipient "Access to a shared note has been revoked",
               Emission.toAll
                 { noteId := share1.noteId, shareId := share1.id, revoked := true,
                   share := share1, shareNoteTitle := ln.note.title }]
            else []
          | none => []
        let ownerEmissions :=
          if socketPresent then
            [Emission.toUserRoom userId "Share was revoked"]
          else []
        .ok (db1, recipientEmissions ++ ownerEmissions)

/-- NoteService.restoreRevision: access check through getNoteById (whose
result has its shares relation cleared), an edit-permission check for
non-owners against that cleared relation, revision lookup, then snapshot
of the current content at the current version, version bump, and
overwrite of the content with the revision content. -/
def restoreRevisionGo (db : DB) (note : Note) (noteId revisionId userId : Nat) :
    Except String (DB × Note) :=
  match db.revisions.find? (fun r => r.id == revisionId && r.noteId == noteId) with
  | none => .error "Revision not found"
  | some revision =>
    let newVersion := note.version + 1
    let db1 : DB :=
      { db with
        revisions := db.revisions ++
          [{ id := db.nextId, content := note.content, version := newVersion - 1,
             noteId := noteId, userId := userId }],
        nextId := db.nextId + 1 }
    let restored : Note := { note with version := newVersion, content := revision.content }
    .ok (saveNote db1 restored, restored)

/-- NoteService.restoreRevision entry point (see restoreRevisionGo). -/
def restoreRevision (db : DB) (noteId revisionId userId : Nat) :
    Except String (DB × Note) :=
  match getNoteById db noteId userId with
  | .error e => .error e
  | .ok ln =>
    if ln.note.ownerId != userId then
      match accessShare ln.shares userId with
      | none => .error "You do not have permission to edit this note"
      | some s =>
        if s.permission != SharePermission.edit then
          .error "You do not have permission to edit this note"
        else
          restoreRevisionGo db ln.note noteId revisionId userId
    else
      restoreRevisionGo db ln.note noteId revisionId userId

/-- The connected-socket population of the server: connection ids, and the
user ids that have a personal room registered in userRooms. -/
structure SocketCtx where
  connectedClients : List Nat
  userRooms : List Nat
deriving DecidableEq, Repr

/-- A message as received by one client socket. -/
inductive ClientMsg
  | userMessage (message : String)
  | shareUpdated (payload : ShareUpdatePayload)
deriving DecidableEq, Repr

/-- Delivery of one emission: a personal-room message reaches the target
user if their room is registered; io.emit reaches every connected
client. -/
def deliver (ctx : SocketCtx) : Emission → List (Nat × ClientMsg)
  | .toUserRoom u m =>
    if ctx.userRooms.contains u then [(u, ClientMsg.userMessage m)] else []
  | .toAll p => ctx.connectedClients.map (fun c => (c, ClientMsg.shareUpdated p))

/-- Delivery of a list of emissions in order. -/
def deliverAll (ctx : SocketCtx) (ems : List Emission) : List (Nat × ClientMsg) :=
  ems.foldr (fun e acc => deliver ctx e ++ acc) []

/-- The content-change client message (interface ContentChange). -/
structure ContentChange where
  noteId : Nat
  content : String
  title : Option String
  cursorPosition : Option (Nat × Nat)
deriving DecidableEq, Repr

/-- The content-update payload broadcast to the other room members,
tagged with the sender user id and the server timestamp. -/
structure ContentUpdate where
  noteId : Nat
  content : String
  title : Option String
  cursorPosition : Option (Nat × Nat)
  userId : Nat
  timestamp : Nat
deriving DecidableEq, Repr

/-- The observable effects of one content-change event: error events
emitted to the sender, broadcasts (receiving connection, payload), and
the updateNote call made to persist a deliberate save, if any. -/
structure HandlerEffects where
  errorsToSender : List String
  broadcasts : List (Nat × ContentUpdate)
  persistCall : Option (Nat × Nat × NoteUpdateInput)
deriving DecidableEq, Repr

/-- The socket content-change handler: unauthenticated sockets get an
error event; a sender not currently in the note room is silently ignored
(no error, no broadcast, no persistence); otherwise the delta is
broadcast to the other members of the room (socket.to excludes the
sender) tagged with the sender user id and a server timestamp, and
persisted through NoteService.updateNote exactly when the delta carries a
truthy title. -/
def handleContentChange (senderConn : Nat) (senderUserId : Option Nat)
    (currentRooms : List String) (roomMembers : List Nat)
    (change : ContentChange) (now : Nat) : HandlerEffects :=
  match senderUserId with
  | none => { errorsToSender := ["Authentication required"], broadcasts := [], persistCall := none }
  | some uid =>
    let roomName := "note:" ++ toString change.noteId
    if currentRooms.contains roomName then
      let payload : ContentUpdate :=
        { noteId := change.noteId, content := change.content, title := change.title,
          cursorPosition := change.cursorPosition, userId := uid, timestamp := now }
      let receivers := roomMembers.filter (fun c => c != senderConn)
      let persist : Option (Nat × Nat × NoteUpdateInput) :=
        if truthyStr change.title then
          some (change.noteId, uid,
            { title := change.title, content := some change.content, isArchived := none })
        else none
      { errorsToSender := [],
        broadcasts := receivers.map (fun c => (c, payload)),
        persistCall := persist }
    else
      { errorsToSender := [], broadcasts := [], persistCall := none }

/-- One share-lifecycle operation, with the ambient arguments its service
call takes (the fresh uuid of shareNote is passed in explicitly). -/
inductive ShareOp
  | create (userId : Nat) (inp : ShareNoteInput) (freshToken : String)
  | accept (token : String) (userId : Nat)
  | decline (token : String) (userId : Nat)
  | revoke (shareId userId : Nat)
deriving Repr

/-- Applying one share-lifecycle operation to the store: a thrown error
leaves the store unchanged (all mutations in the source happen after the
guards). -/
def applyShareOp (db : DB) : ShareOp → DB
  | .create u inp tok =>
    match shareNote db u inp tok with
    | .ok (db1, _) => db1
    | .error _ => db
  | .accept tok u =>
    match acceptSharedNote db tok u with
    | .ok (db1, _) => db1
    | .error _ => db
  | .decline tok u =>
    match declineSharedNote db tok u with
    | .ok db1 => db1
    | .error _ => db
  | .revoke sid u =>
    match revokeShare db sid u true with
    | .ok (db1, _) => db1
    | .error _ => db

/-- The evolution relation of claim C3 between an old and a new state of
one share row: isRevoked monotone, isAccepted monotone, and a revoked
not-yet-accepted share never becomes accepted. -/
def ShareEvolves (s s1 : NoteShare) : Prop :=
  (s.isRevoked = true → s1.isRevoked = true) ∧
  (s.isAccepted = true → s1.isAccepted = true) ∧
  (s.isRevoked = true ∧ s.isAccepted = false → s1.isAccepted = false)

theorem shareEvolves_refl (s : NoteShare) : ShareEvolves s s :=
  ⟨fun h => h, fun h => h, fun h => h.2⟩

theorem shareEvolves_trans {a b c : NoteShare}
    (h1 : ShareEvolves a b) (h2 : ShareEvolves b c) : ShareEvolves a c := by
  obtain ⟨r1, a1, n1⟩ := h1
  obtain ⟨r2, a2, n2⟩ := h2
  refine ⟨fun h => r2 (r1 h), fun h => a2 (a1 h), fun ⟨hr, ha⟩ => ?_⟩
  exact n2 ⟨r1 hr, n1 ⟨hr, ha⟩⟩

/-- Well-formedness of the share table: primary keys are distinct and
below the fresh-id counter (uuid uniqueness in the source). -/
def sharesWF (db : DB) : Prop :=
  (db.shares.map (fun s => s.id)).Nodup ∧ ∀ s ∈ db.shares, s.id < db.nextId

instance (db : DB) : Decidable (sharesWF db) := by
  unfold sharesWF; infer_instance

/-- Positionwise evolution of the share table between two store states:
every existing row index still holds a row, and that row evolved
according to ShareEvolves. -/
def SharesEvolve (db db1 : DB) : Prop :=
  ∀ (i : Nat) (s : NoteShare), db.shares[i]? = some s →
    ∃ s1, db1.shares[i]? = some s1 ∧ ShareEvolves s s1

theorem sharesEvolve_refl (db : DB) : SharesEvolve db db :=
  fun _ s h => ⟨s, h, shareEvolves_refl s⟩

theorem sharesEvolve_trans {a b c : DB}
    (h1 : SharesEvolve a b) (h2 : SharesEvolve b c) : SharesEvolve a c := by
  intro i s hs
  obtain ⟨s1, hs1, e1⟩ := h1 i s hs
  obtain ⟨s2, hs2, e2⟩ := h2 i s1 hs1
  exact ⟨s2, hs2, shareEvolves_trans e1 e2⟩

theorem saveShare_elem_id (s y : NoteShare) :
    (if y.id == s.id then s else y).id = y.id := by
  split
  next h => simp only [beq_iff_eq] at h; rw [h]
  next => rfl

theorem saveShare_ids (db : DB) (s : NoteShare) :
    (saveShare db s).shares.map (fun x => x.id) = db.shares.map (fun x => x.id) := by
  simp only [saveShare, List.map_map]
  apply List.map_congr_left
  intro x _
  simp only [Function.comp_apply]
  exact saveShare_elem_id s x

theorem saveShare_nextId (db : DB) (s : NoteShare) :
    (saveShare db s).nextId = db.nextId := rfl

theorem sharesWF_saveShare (db : DB) (s : NoteShare) (hwf : sharesWF db) :
    sharesWF (saveShare db s) := by
  obtain ⟨hnd, hlt⟩ := hwf
  constructor
  · rw [saveShare_ids]; exact hnd
  · intro x hx
    simp only [saveShare, List.mem_map] at hx
    obtain ⟨y, hy, hxy⟩ := hx
    rw [saveShare_nextId]
    have hxid : x.id = y.id := by rw [← hxy]; exact saveShare_elem_id s y
    rw [hxid]
    exact hlt y hy

theorem sharesEvolve_saveShare (db : DB) (share s1 : NoteShare)
    (hwf : sharesWF db) (hmem : share ∈ db.shares) (hid : s1.id = share.id)
    (hev : ShareEvolves share s1) : SharesEvolve db (saveShare db s1) := by
  intro i x hx
  have hlen : i < db.shares.length := by
    by_contra hge
    rw [List.getElem?_eq_none (Nat.le_of_not_lt hge)] at hx
    exact Option.noConfusion hx
  have hxmem : x ∈ db.shares := List.getElem?_mem hx
  refine ⟨if x.id == s1.id then s1 else x, ?_, ?_⟩
  · simp only [saveShare]
    rw [List.getElem?_map, hx]
    rfl
  · by_cases h : x.id == s1.id
    · simp only [h, if_pos rfl]
      have hxs : x = share := by
        simp only [beq_iff_eq] at h
        exact List.inj_on_of_nodup_map hwf.1 hxmem hmem (by rw [h, hid])
      rw [hxs]
      exact hev
    · simp only [h]
      simp only [Bool.false_eq_true, if_false]
      exact shareEvolves_refl x

theorem shareNote_ok {db : DB} {u : Nat} {inp : ShareNoteInput} {tok : String}
    {db1 : DB} {sh : NoteShare}
    (h : shareNote db u inp tok = .ok (db1, sh)) :
    db1.shares = db.shares ++ [sh] ∧ sh.id = db.nextId ∧ sh.isAccepted = false ∧
      sh.isRevoked = false ∧ db1.nextId = db.nextId + 1 := by
  unfold shareNote at h
  split at h
  · exact absurd h (by simp)
  · split at h
    · exact absurd h (by simp)
    · simp only [Except.ok.injEq, Prod.mk.injEq] at h
      obtain ⟨hdb, hsh⟩ := h
      subst hsh
      subst hdb
      exact ⟨rfl, rfl, rfl, rfl, rfl⟩

theorem acceptSharedNote_ok {db : DB} {tok : String} {u : Nat}
    {db1 : DB} {sh : NoteShare}
    (h : acceptSharedNote db tok u = .ok (db1, sh)) :
    ∃ share, findShareByToken db tok = some share ∧ share ∈ db.shares ∧
      share.isRevoked = false ∧ share.isAccepted = false ∧
      sh = { share with sharedWithId := some u, isAccepted := true } ∧
      db1 = saveShare db sh := by
  unfold acceptSharedNote at h
  split at h
  · exact absurd h (by simp)
  case _ share heq =>
    refine ⟨share, heq, List.mem_of_find?_eq_some heq, ?_⟩
    split at h
    · exact absurd h (by simp)
    case _ hrev =>
      split at h
      · exact absurd h (by simp)
      case _ hacc =>
        split at h
        · exact absurd h (by simp)
        · split at h
          · exact absurd h (by simp)
          · split at h
            · exact absurd h (by simp)
            · simp only [Except.ok.injEq, Prod.mk.injEq] at h
              obtain ⟨hdb, hsh⟩ := h
              refine ⟨by simpa using hrev, by simpa using hacc, hsh.symm, ?_⟩
              rw [← hdb, hsh]

theorem declineSharedNote_ok {db : DB} {tok : String} {u : Nat} {db1 : DB}
    (h : declineSharedNote db tok u = .ok db1) :
    ∃ share, findShareByToken db tok = some share ∧ share ∈ db.shares ∧
      share.isRevoked = false ∧ share.isAccepted = false ∧
      db1 = saveShare db { share with isRevoked := true, sharedWithId := some u } := by
  unfold declineSharedNote at h
  split at h
  · exact absurd h (by simp)
  case _ share heq =>
    refine ⟨share, heq, List.mem_of_find?_eq_some heq, ?_⟩
    split at h
    · exact absurd h (by simp)
    case _ hrev =>
      split at h
      · exact absurd h (by simp)
      case _ hacc =>
        split at h
        · exact absurd h (by simp)
        · split at h
          · exact absurd h (by simp)
          · split at h
            · exact absurd h (by simp)
            · simp only [Except.ok.injEq] at h
              exact ⟨by simpa using hrev, by simpa using hacc, h.symm⟩

theorem revokeShare_ok {db : DB} {sid u : Nat} {socketPresent : Bool}
    {db1 : DB} {ems : List Emission}
    (h : revokeShare db sid u socketPresent = .ok (db1, ems)) :
    ∃ share, findShareById db sid = some share ∧ share ∈ db.shares ∧
      db1 = saveShare db { share with isRevoked := true } := by
  unfold revokeShare at h
  split at h
  · exact absurd h (by simp)
  case _ share heq =>
    refine ⟨share, heq, List.mem_of_find?_eq_some heq, ?_⟩
    split at h
    · exact absurd h (by simp)
    · split at h
      · exact absurd h (by simp)
      · simp only [Except.ok.injEq, Prod.mk.injEq] at h
        exact h.1.symm

theorem sharesWF_of_append {db db1 : DB} {sh : NoteShare} (hwf : sharesWF db)
    (hsh : db1.shares = db.shares ++ [sh]) (hid : sh.id = db.nextId)
    (hnext : db1.nextId = db.nextId + 1) : sharesWF db1 := by
  obtain ⟨hnd, hlt⟩ := hwf
  constructor
  · rw [hsh, List.map_append, List.nodup_append]
    refine ⟨hnd, List.nodup_singleton _, ?_⟩
    intro a ha hb
    simp only [List.map_cons, List.map_nil, List.mem_singleton] at hb
    simp only [List.mem_map] at ha
    obtain ⟨y, hy, hya⟩ := ha
    have : a < db.nextId := hya ▸ hlt y hy
    omega
  · intro x hx
    rw [hsh] at hx
    rw [hnext]
    rcases List.mem_append.mp hx with hx | hx
    · have := hlt x hx; omega
    · simp only [List.mem_singleton] at hx
      rw [hx, hid]
      omega

theorem sharesEvolve_of_append {db db1 : DB} {sh : NoteShare}
    (hsh : db1.shares = db.shares ++ [sh]) : SharesEvolve db db1 := by
  intro i s hs
  have hlen : i < db.shares.length := by
    by_contra hge
    rw [List.getElem?_eq_none (Nat.le_of_not_lt hge)] at hs
    exact Option.noConfusion hs
  refine ⟨s, ?_, shareEvolves_refl s⟩
  rw [hsh, List.getElem?_append_left hlen]
  exact hs

/-- One share-lifecycle operation preserves well-formedness of the share
table and evolves every existing share row monotonically. -/
theorem applyShareOp_evolve (db : DB) (op : ShareOp) (hwf : sharesWF db) :
    sharesWF (applyShareOp db op) ∧ SharesEvolve db (applyShareOp db op) := by
  cases op with
  | create u inp tok =>
    simp only [applyShareOp]
    split
    case _ db1 sh heq =>
      obtain ⟨hsh, hid, _, _, hnext⟩ := shareNote_ok heq
      exact ⟨sharesWF_of_append hwf hsh hid hnext, sharesEvolve_of_append hsh⟩
    case _ => exact ⟨hwf, sharesEvolve_refl db⟩
  | accept tok u =>
    simp only [applyShareOp]
    split
    case _ db1 sh heq =>
      obtain ⟨share, _, hmem, hrev, hacc, hsh, hdb1⟩ := acceptSharedNote_ok heq
      subst hdb1
      refine ⟨sharesWF_saveShare db sh hwf, ?_⟩
      apply sharesEvolve_saveShare db share sh hwf hmem (by rw [hsh])
      subst hsh
      refine ⟨fun h => ?_, fun h => rfl, fun ⟨h, _⟩ => ?_⟩
      · rw [hrev] at h; exact absurd h (by simp)
      · rw [hrev] at h; exact absurd h (by simp)
    case _ => exact ⟨hwf, sharesEvolve_refl db⟩
  | decline tok u =>
    simp only [applyShareOp]
    split
    case _ db1 heq =>
      obtain ⟨share, _, hmem, hrev, hacc, hdb1⟩ := declineSharedNote_ok heq
      subst hdb1
      refine ⟨sharesWF_saveShare db _ hwf, ?_⟩
      apply sharesEvolve_saveShare db share _ hwf hmem
      · rfl
      · exact ⟨fun _ => rfl, fun h => h, fun ⟨_, h⟩ => h⟩
    case _ => exact ⟨hwf, sharesEvolve_refl db⟩
  | revoke sid u =>
    simp only [applyShareOp]
    split
    case _ db1 ems heq =>
      obtain ⟨share, _, hmem, hdb1⟩ := revokeShare_ok heq
      subst hdb1
      refine ⟨sharesWF_saveShare db _ hwf, ?_⟩
      apply sharesEvolve_saveShare db share _ hwf hmem
      · rfl
      · exact ⟨fun _ => rfl, fun h => h, fun ⟨_, h⟩ => h⟩
    case _ => exact ⟨hwf, sharesEvolve_refl db⟩

/-- Folding a whole sequence of share-lifecycle operations preserves
well-formedness and evolves every share row monotonically. -/
theorem foldl_applyShareOp_evolve (ops : List ShareOp) (db : DB) (hwf : sharesWF db) :
    sharesWF (ops.foldl applyShareOp db) ∧ SharesEvolve db (ops.foldl applyShareOp db) := by
  induction ops generalizing db with
  | nil => exact ⟨hwf, sharesEvolve_refl db⟩
  | cons op rest ih =>
    obtain ⟨hwf1, hev1⟩ := applyShareOp_evolve db op hwf
    obtain ⟨hwf2, hev2⟩ := ih (applyShareOp db op) hwf1
    exact ⟨hwf2, sharesEvolve_trans hev1 hev2⟩

theorem grantsAccess_iff (s : NoteShare) (userId : Nat) :
    ((s.sharedWithId == some userId && !s.isRevoked && s.isAccepted) = true) ↔
      GrantsAccess s userId := by
  unfold GrantsAccess
  simp only [Bool.and_eq_true, beq_iff_eq, Bool.not_eq_true']
  tauto

/-- C1: the access decision of getNoteById.  The owner always resolves to
edit permission, whatever share rows exist; a non-owner with an accepted,
non-revoked share targeting them resolves to the permission of such a
share (the first one in table order); any other user is denied with a
permission error. -/
theorem claim1_access_decision (db : DB) (noteId userId : Nat) (note : Note)
    (hfind : findNote db noteId = some note) :
    (note.ownerId = userId →
      getNoteById db noteId userId =
        .ok { note := note, shares := [], permission := SharePermission.edit }) ∧
    (note.ownerId ≠ userId →
      ((∃ s ∈ sharesOfNote db noteId, GrantsAccess s userId) →
        ∃ s ∈ sharesOfNote db noteId, GrantsAccess s userId ∧
          getNoteById db noteId userId =
            .ok { note := note, shares := [], permission := s.permission }) ∧
      ((∀ s ∈ sharesOfNote db noteId, ¬ GrantsAccess s userId) →
        getNoteById db noteId userId =
          .error "You do not have permission to access this note")) := by
  constructor
  · intro hown
    unfold getNoteById
    rw [hfind]
    simp [hown]
  · intro hown
    constructor
    · intro hex
      have hsome : (accessShare (sharesOfNote db noteId) userId).isSome := by
        unfold accessShare
        rw [List.find?_isSome]
        obtain ⟨s, hmem, hg⟩ := hex
        exact ⟨s, hmem, (grantsAccess_iff s userId).mpr hg⟩
      obtain ⟨s0, heq⟩ := Option.isSome_iff_exists.mp hsome
      have heq2 : List.find?
          (fun s => s.sharedWithId == some userId && !s.isRevoked && s.isAccepted)
          (sharesOfNote db noteId) = some s0 := heq
      have hp := List.find?_some heq2
      refine ⟨s0, List.mem_of_find?_eq_some heq2,
        (grantsAccess_iff s0 userId).mp (by simpa using hp), ?_⟩
      unfold getNoteById
      rw [hfind]
      have hne : (note.ownerId != userId) = true := by
        simpa using hown
      simp only [hne, if_true]
      rw [heq]
    · intro hall
      have hnone : accessShare (sharesOfNote db noteId) userId = none := by
        unfold accessShare
        rw [List.find?_eq_none]
        intro s hmem hp
        exact hall s hmem ((grantsAccess_iff s userId).mp hp)
      unfold getNoteById
      rw [hfind]
      have hne : (note.ownerId != userId) = true := by
        simpa using hown
      simp only [hne, if_true]
      rw [hnone]

/-- Concrete store for the claim C1 witness: user 1 owns note 10, user 2
holds an accepted read share. -/
def dbC1 : DB :=
  { users := [{ id := 1, name := none, email := "a@x.com" },
              { id := 2, name := none, email := "b@x.com" }],
    notes := [{ id := 10, title := "T", content := "C1", isArchived := false,
                ownerId := 1, version := 1 }],
    shares := [{ id := 20, noteId := 10, sharedWithId := some 2,
                 email := some "b@x.com", permission := SharePermission.read,
                 isAccepted := true, isRevoked := false, shareToken := some "tok" }],
    revisions := [], nextId := 21 }

theorem claim1_access_decision_witness :
    getNoteById dbC1 10 1 =
      .ok { note := { id := 10, title := "T", content := "C1", isArchived := false,
                      ownerId := 1, version := 1 },
            shares := [], permission := SharePermission.edit } :=
  (claim1_access_decision dbC1 10 1
    { id := 10, title := "T", content := "C1", isArchived := false,
      ownerId := 1, version := 1 } rfl).1 rfl

/-- C3: across any sequence of share, accept, decline and revoke
operations, isRevoked never falls back from true to false, isAccepted
never falls back from true to false, and no operation sets isAccepted on
a share whose isRevoked flag is already true. -/
theorem claim3_share_flag_monotonicity (db : DB) (ops : List ShareOp)
    (hwf : sharesWF db) (i : Nat) (s : NoteShare) (hs : db.shares[i]? = some s) :
    ∃ s1, (ops.foldl applyShareOp db).shares[i]? = some s1 ∧
      (s.isRevoked = true → s1.isRevoked = true) ∧
      (s.isAccepted = true → s1.isAccepted = true) ∧
      (s.isRevoked = true ∧ s.isAccepted = false → s1.isAccepted = false) :=
  (foldl_applyShareOp_evolve ops db hwf).2 i s hs

/-- Concrete store for the claim C3 witness: a pending share that the
sequence accepts and then revokes. -/
def dbC3 : DB :=
  { users := [{ id := 2, name := none, email := "b@x.com" }],
    notes := [{ id := 10, title := "T", content := "C", isArchived := false,
                ownerId := 1, version := 1 }],
    shares := [{ id := 20, noteId := 10, sharedWithId := some 2,
                 email := some "b@x.com", permission := SharePermission.read,
                 isAccepted := false, isRevoked := false, shareToken := some "tok" }],
    revisions := [], nextId := 21 }

def opsC3 : List ShareOp := [ShareOp.accept "tok" 2, ShareOp.revoke 20 1]

theorem claim3_share_flag_monotonicity_witness :
    ∃ s1, (opsC3.foldl applyShareOp dbC3).shares[0]? = some s1 ∧
      (({ id := 20, noteId := 10, sharedWithId := some 2,
          email := some "b@x.com", permission := SharePermission.read,
          isAccepted := false, isRevoked := false,
          shareToken := some "tok" } : NoteShare).isRevoked = true → s1.isRevoked = true) ∧
      (({ id := 20, noteId := 10, sharedWithId := some 2,
          email := some "b@x.com", permission := SharePermission.read,
          isAccepted := false, isRevoked := false,
          shareToken := some "tok" } : NoteShare).isAccepted = true → s1.isAccepted = true) ∧
      (({ id := 20, noteId := 10, sharedWithId := some 2,
          email := some "b@x.com", permission := SharePermission.read,
          isAccepted := false, isRevoked := false,
          shareToken := some "tok" } : NoteShare).isRevoked = true ∧
        ({ id := 20, noteId := 10, sharedWithId := some 2,
           email := some "b@x.com", permission := SharePermission.read,
           isAccepted := false, isRevoked := false,
           shareToken := some "tok" } : NoteShare).isAccepted = false → s1.isAccepted = false) :=
  claim3_share_flag_monotonicity dbC3 opsC3 (by decide) 0 _ rfl

theorem getNoteById_owner {db : DB} {noteId userId : Nat} {note : Note}
    (hfind : findNote db noteId = some note) (hown : note.ownerId = userId) :
    getNoteById db noteId userId =
      .ok { note := note, shares := [], permission := SharePermission.edit } := by
  unfold getNoteById
  rw [hfind]
  simp [hown]

/-- C4: the guard chain of acceptSharedNote.  Unknown token, revoked
share, double accept, wrong bound recipient and wrong email each fail
with their message; on success the recipient is bound, isAccepted is set,
and nothing else on the share row changes. -/
theorem claim4_accept_guards (db : DB) (token : String) (userId : Nat) :
    (findShareByToken db token = none →
      acceptSharedNote db token userId = .error "Invalid share token") ∧
    (∀ share, findShareByToken db token = some share →
      (share.isRevoked = true →
        acceptSharedNote db token userId = .error "This share has been revoked") ∧
      (share.isRevoked = false → share.isAccepted = true →
        acceptSharedNote db token userId = .error "This share has already been accepted") ∧
      (share.isRevoked = false → share.isAccepted = false →
        ∀ v, share.sharedWithId = some v → v ≠ userId →
          acceptSharedNote db token userId = .error "This share was not intended for you") ∧
      (share.isRevoked = false → share.isAccepted = false →
        (share.sharedWithId = none ∨ share.sharedWithId = some userId) →
        ∀ user, findUser db userId = some user →
          ∀ e, share.email = some e → e ≠ user.email →
            acceptSharedNote db token userId =
              .error "This share was intended for a different email address") ∧
      (share.isRevoked = false → share.isAccepted = false →
        (share.sharedWithId = none ∨ share.sharedWithId = some userId) →
        ∀ user, findUser db userId = some user →
          (share.email = none ∨ share.email = some user.email) →
          acceptSharedNote db token userId =
            .ok (saveShare db { share with sharedWithId := some userId, isAccepted := true },
                 { share with sharedWithId := some userId, isAccepted := true }))) := by
  constructor
  · intro hnone
    unfold acceptSharedNote
    rw [hnone]
  · intro share hsome
    refine ⟨?_, ?_, ?_, ?_, ?_⟩
    · intro hrev
      unfold acceptSharedNote
      rw [hsome]
      simp [hrev]
    · intro hrev hacc
      unfold acceptSharedNote
      rw [hsome]
      simp [hrev, hacc]
    · intro hrev hacc v hv hne
      unfold acceptSharedNote
      rw [hsome]
      simp [hrev, hacc, hv, hne]
    · intro hrev hacc hbound user huser e he hne
      unfold acceptSharedNote
      rw [hsome]
      rcases hbound with hb | hb <;>
        simp [hrev, hacc, hb, huser, he, hne]
    · intro hrev hacc hbound user huser hemail
      unfold acceptSharedNote
      rw [hsome]
      rcases hbound with hb | hb <;> rcases hemail with he | he <;>
        simp [hrev, hacc, hb, huser, he]

/-- Concrete store for the claim C4 witness: user 2 accepts the pending
share addressed to their email. -/
def dbC4 : DB :=
  { users := [{ id := 2, name := none, email := "b@x.com" }],
    notes := [{ id := 10, title := "T", content := "C", isArchived := false,
                ownerId := 1, version := 1 }],
    shares := [{ id := 20, noteId := 10, sharedWithId := some 2,
                 email := some "b@x.com", permission := SharePermission.read,
                 isAccepted := false, isRevoked := false, shareToken := some "tok" }],
    revisions := [], nextId := 21 }

theorem claim4_accept_guards_witness :
    acceptSharedNote dbC4 "tok" 2 =
      .ok (saveShare dbC4
             { id := 20, noteId := 10, sharedWithId := some 2,
               email := some "b@x.com", permission := SharePermission.read,
               isAccepted := true, isRevoked := false, shareToken := some "tok" },
           { id := 20, noteId := 10, sharedWithId := some 2,
             email := some "b@x.com", permission := SharePermission.read,
             isAccepted := true, isRevoked := false, shareToken := some "tok" }) :=
  (((claim4_accept_guards dbC4 "tok" 2).2
      { id := 20, noteId := 10, sharedWithId := some 2,
        email := some "b@x.com", permission := SharePermission.read,
        isAccepted := false, isRevoked := false, shareToken := some "tok" }
      rfl).2.2.2.2) rfl rfl (Or.inr rfl)
    { id := 2, name := none, email := "b@x.com" } rfl (Or.inr rfl)

/-- Concrete store shared by the updateNote claims: user 1 owns note 10
with content C1 at version 1. -/
def dbC2 : DB :=
  { users := [{ id := 1, name := none, email := "a@x.com" }],
    notes := [{ id := 10, title := "T", content := "C1", isArchived := false,
                ownerId := 1, version := 1 }],
    shares := [], revisions := [], nextId := 11 }

/-- C2 counterexample: a patch whose content is present (the empty
string) and differs from the stored content C1 is applied without
appending a revision and without incrementing the version, so the claim
as stated fails at this input. -/
theorem claim2_counterexample :
    (some "" ≠ (none : Option String)) ∧ "" ≠ "C1" ∧
    ∃ db1 n1 p,
      updateNote dbC2 10 1 { title := none, content := some "", isArchived := none } =
        .ok (db1, n1, p) ∧
      db1.revisions = [] ∧ n1.version = 1 ∧ n1.content = "" := by
  exact ⟨by decide, by decide, _, _, _, rfl, rfl, rfl, rfl⟩

/-- C2 amended: for a permitted editor, a patch whose content is present,
non-empty and different from the stored content appends exactly one
revision holding the pre-update content at the pre-update version and
increments the version by one; a patch without content (title-only or
archive-only) appends no revision and leaves the version unchanged. -/
theorem claim2_amended_revision_on_changed_content (db : DB) (noteId userId : Nat)
    (u : NoteUpdateInput) (note : Note)
    (hfind : findNote db noteId = some note)
    (hperm : note.ownerId = userId ∨
      ∃ s, accessShare (sharesOfNote db noteId) userId = some s ∧
        s.permission = SharePermission.edit) :
    (∀ c, u.content = some c → c ≠ "" → c ≠ note.content →
      ∃ db1 n1 p, updateNote db noteId userId u = .ok (db1, n1, p) ∧
        db1.revisions = db.revisions ++
          [{ id := db.nextId, content := note.content, version := note.version,
             noteId := noteId, userId := userId }] ∧
        n1.version = note.version + 1 ∧ n1.content = c) ∧
    (u.content = none →
      ∃ db1 n1 p, updateNote db noteId userId u = .ok (db1, n1, p) ∧
        db1.revisions = db.revisions ∧ n1.version = note.version) := by
  constructor
  · intro c hc hne hdiff
    unfold updateNote
    rw [hfind]
    rcases hperm with hown | ⟨s, hs, hsp⟩
    · simp [hown, hc, truthyStr, hne, hdiff, applyPatch, saveNote]
      exact ⟨_, _, ⟨rfl, rfl⟩, rfl, rfl, rfl⟩
    · simp [hs, hsp, hc, truthyStr, hne, hdiff, applyPatch, saveNote]
      exact ⟨_, _, ⟨rfl, rfl⟩, rfl, rfl, rfl⟩
  · intro hc
    unfold updateNote
    rw [hfind]
    rcases hperm with hown | ⟨s, hs, hsp⟩
    · simp [hown, hc, truthyStr, applyPatch, saveNote]
      exact ⟨_, _, ⟨rfl, rfl⟩, rfl, rfl⟩
    · simp [hs, hsp, hc, truthyStr, applyPatch, saveNote]
      exact ⟨_, _, ⟨rfl, rfl⟩, rfl, rfl⟩

theorem claim2_amended_revision_on_changed_content_witness :
    ∃ db1 n1 p,
      updateNote dbC2 10 1 { title := none, content := some "C2", isArchived := none } =
        .ok (db1, n1, p) ∧
      db1.revisions = dbC2.revisions ++
        [{ id := 11, content := "C1", version := 1, noteId := 10, userId := 1 }] ∧
      n1.version = 2 ∧ n1.content = "C2" :=
  (claim2_amended_revision_on_changed_content dbC2 10 1
      { title := none, content := some "C2", isArchived := none }
      { id := 10, title := "T", content := "C1", isArchived := false,
        ownerId := 1, version := 1 }
      rfl (Or.inl rfl)).1 "C2" rfl (by decide) (by decide)

/-- C9: a present-but-empty content patch is applied (the stored content
is overwritten with the empty string) but, the revision guard being the
truthiness of the field, no revision is appended and the version is
unchanged. -/
theorem claim9_empty_content_applied_without_snapshot (db : DB) (noteId userId : Nat)
    (t : Option String) (a : Option Bool) (note : Note)
    (hfind : findNote db noteId = some note)
    (hperm : note.ownerId = userId ∨
      ∃ s, accessShare (sharesOfNote db noteId) userId = some s ∧
        s.permission = SharePermission.edit)
    (_hne : note.content ≠ "") :
    ∃ db1 n1 p,
      updateNote db noteId userId { title := t, content := some "", isArchived := a } =
        .ok (db1, n1, p) ∧
      db1.revisions = db.revisions ∧ n1.version = note.version ∧ n1.content = "" := by
  unfold updateNote
  rw [hfind]
  rcases hperm with hown | ⟨s, hs, hsp⟩
  · simp [hown, truthyStr, applyPatch, saveNote]
    exact ⟨_, _, ⟨rfl, rfl⟩, rfl, rfl, rfl⟩
  · simp [hs, hsp, truthyStr, applyPatch, saveNote]
    exact ⟨_, _, ⟨rfl, rfl⟩, rfl, rfl, rfl⟩

theorem claim9_empty_content_applied_without_snapshot_witness :
    ∃ db1 n1 p,
      updateNote dbC2 10 1 { title := none, content := some "", isArchived := none } =
        .ok (db1, n1, p) ∧
      db1.revisions = dbC2.revisions ∧ n1.version = 1 ∧ n1.content = "" :=
  claim9_empty_content_applied_without_snapshot dbC2 10 1 none none
    { id := 10, title := "T", content := "C1", isArchived := false,
      ownerId := 1, version := 1 }
    rfl (Or.inl rfl) (by decide)

/-- Concrete store for the claim C6 scenario: a lone registered user and
an empty note table. -/
def dbC6 : DB :=
  { users := [{ id := 1, name := none, email := "a@x.com" }],
    notes := [], shares := [], revisions := [], nextId := 10 }

/-- C6 counterexample: immediately after createNote the revision ledger
of the new note holds one revision (the initial snapshot written by
createNote), not zero as the claim states. -/
theorem claim6_counterexample :
    ∃ db1 n1, createNote dbC6 1 "T" "C1" = .ok (db1, n1) ∧ n1.version = 1 ∧
      (revisionsOfNote db1 n1.id).length = 1 := by
  exact ⟨_, _, rfl, rfl, rfl⟩

/-- C6 amended: after createNote the note is at version 1 and the ledger
holds exactly one revision, the initial content C1 recorded at version 1;
after the content update to C2 the note is at version 2 and the ledger
holds exactly two revisions, both with content C1 at version 1 (the
initial snapshot plus the pre-update snapshot). -/
theorem claim6_amended_scenario :
    ∃ db1 n1, createNote dbC6 1 "T" "C1" = .ok (db1, n1) ∧
      n1.version = 1 ∧ n1.content = "C1" ∧
      revisionsOfNote db1 n1.id =
        [{ id := 11, content := "C1", version := 1, noteId := 10, userId := 1 }] ∧
      ∃ db2 n2 p,
        updateNote db1 n1.id 1 { title := none, content := some "C2", isArchived := none } =
          .ok (db2, n2, p) ∧
        n2.version = 2 ∧ n2.content = "C2" ∧
        revisionsOfNote db2 n2.id =
          [{ id := 11, content := "C1", version := 1, noteId := 10, userId := 1 },
           { id := 12, content := "C1", version := 1, noteId := 10, userId := 1 }] := by
  exact ⟨_, _, rfl, rfl, rfl, rfl, _, _, _, rfl, rfl, rfl, rfl⟩

/-- Concrete store for claim C5: user 1 owns note 10 (content C2 at
version 2), user 2 holds an accepted edit share, and revision 11 holds
the version 1 content C1. -/
def dbC5 : DB :=
  { users := [{ id := 1, name := none, email := "a@x.com" },
              { id := 2, name := none, email := "b@x.com" }],
    notes := [{ id := 10, title := "T", content := "C2", isArchived := false,
                ownerId := 1, version := 2 }],
    shares := [{ id := 20, noteId := 10, sharedWithId := some 2,
                 email := some "b@x.com", permission := SharePermission.edit,
                 isAccepted := true, isRevoked := false, shareToken := some "tok" }],
    revisions := [{ id := 11, content := "C1", version := 1, noteId := 10, userId := 1 }],
    nextId := 21 }

/-- C5: the code at the failing input.  User 2 holds an accepted edit
share and getNoteById resolves them to edit permission, yet
restoreRevision rejects them, because getNoteById clears the shares
relation before restoreRevision scans it; the owner path still works and
behaves as the claim describes. -/
theorem claim5_restore_denied_for_edit_share_user :
    getNoteById dbC5 10 2 =
      .ok { note := { id := 10, title := "T", content := "C2", isArchived := false,
                      ownerId := 1, version := 2 },
            shares := [], permission := SharePermission.edit } ∧
    restoreRevision dbC5 10 11 2 = .error "You do not have permission to edit this note" ∧
    ∃ db1 n1, restoreRevision dbC5 10 11 1 = .ok (db1, n1) ∧
      n1.content = "C1" ∧ n1.version = 3 ∧
      revisionsOfNote db1 10 =
        [{ id := 11, content := "C1", version := 1, noteId := 10, userId := 1 },
         { id := 21, content := "C2", version := 2, noteId := 10, userId := 1 }] := by
  exact ⟨rfl, rfl, _, _, rfl, rfl, rfl, rfl⟩

theorem filter_not_filter {α : Type} (l : List α) (p : α → Bool) :
    (l.filter (fun a => !(p a))).filter p = [] := by
  rw [List.filter_eq_nil_iff]
  intro a ha
  have h2 := (List.mem_filter.mp ha).2
  simp only [Bool.not_eq_true'] at h2
  simp [h2]

theorem find?_filter_not {α : Type} (l : List α) (p : α → Bool) :
    (l.filter (fun a => !(p a))).find? p = none := by
  rw [List.find?_eq_none]
  intro a ha
  have h2 := (List.mem_filter.mp ha).2
  simp only [Bool.not_eq_true'] at h2
  simp [h2]

theorem getNoteById_ok_note {db : DB} {noteId userId : Nat} {ln : LoadedNote}
    (h : getNoteById db noteId userId = .ok ln) : findNote db noteId = some ln.note := by
  unfold getNoteById at h
  split at h
  · exact absurd h (by simp)
  case _ n heq =>
    split at h
    · split at h
      · exact absurd h (by simp)
      · simp only [Except.ok.injEq] at h
        rw [heq, ← h]
    · simp only [Except.ok.injEq] at h
      rw [heq, ← h]

/-- C7: deleteNote is owner-only and leaves the store untouched for any
non-owner; for the owner it deletes the revisions, then the shares, then
the note row, in that order, and a storage failure at any cascade step
surfaces as an error and aborts the remaining steps. -/
theorem claim7_delete_cascade (db : DB) (noteId userId : Nat) (note : Note)
    (failsAt : CascadeStep → Bool) (hfind : findNote db noteId = some note) :
    (note.ownerId ≠ userId →
      (deleteNote db noteId userId failsAt).err.isSome = true ∧
      (deleteNote db noteId userId failsAt).db = db ∧
      (deleteNote db noteId userId failsAt).steps = []) ∧
    (note.ownerId = userId →
      (failsAt CascadeStep.revisions = true →
        (deleteNote db noteId userId failsAt).err.isSome = true ∧
        (deleteNote db noteId userId failsAt).db = db ∧
        (deleteNote db noteId userId failsAt).steps = []) ∧
      (failsAt CascadeStep.revisions = false → failsAt CascadeStep.shares = true →
        (deleteNote db noteId userId failsAt).err.isSome = true ∧
        (deleteNote db noteId userId failsAt).steps = [CascadeStep.revisions] ∧
        revisionsOfNote (deleteNote db noteId userId failsAt).db noteId = [] ∧
        sharesOfNote (deleteNote db noteId userId failsAt).db noteId = sharesOfNote db noteId ∧
        findNote (deleteNote db noteId userId failsAt).db noteId = some note) ∧
      (failsAt CascadeStep.revisions = false → failsAt CascadeStep.shares = false →
        failsAt CascadeStep.note = true →
        (deleteNote db noteId userId failsAt).err.isSome = true ∧
        (deleteNote db noteId userId failsAt).steps = [CascadeStep.revisions, CascadeStep.shares] ∧
        revisionsOfNote (deleteNote db noteId userId failsAt).db noteId = [] ∧
        sharesOfNote (deleteNote db noteId userId failsAt).db noteId = [] ∧
        findNote (deleteNote db noteId userId failsAt).db noteId = some note) ∧
      (failsAt CascadeStep.revisions = false → failsAt CascadeStep.shares = false →
        failsAt CascadeStep.note = false →
        (deleteNote db noteId userId failsAt).err = none ∧
        (deleteNote db noteId userId failsAt).steps =
          [CascadeStep.revisions, CascadeStep.shares, CascadeStep.note] ∧
        revisionsOfNote (deleteNote db noteId userId failsAt).db noteId = [] ∧
        sharesOfNote (deleteNote db noteId userId failsAt).db noteId = [] ∧
        findNote (deleteNote db noteId userId failsAt).db noteId = none)) := by
  constructor
  · intro hown
    cases hg : getNoteById db noteId userId with
    | error e =>
      have hres : deleteNote db noteId userId failsAt =
          { err := some e, db := db, steps := [] } := by
        simp [deleteNote, hg]
      rw [hres]
      exact ⟨rfl, rfl, rfl⟩
    | ok ln =>
      have hln : ln.note = note := by
        have h2 := getNoteById_ok_note hg
        rw [hfind] at h2
        exact (Option.some_inj.mp h2).symm
      have hne : (ln.note.ownerId != userId) = true := by
        rw [hln]; simpa using hown
      have hres : deleteNote db noteId userId failsAt =
          { err := some "Only the owner can delete this note", db := db, steps := [] } := by
        simp [deleteNote, hg, hne]
      rw [hres]
      exact ⟨rfl, rfl, rfl⟩
  · intro hown
    have hg := getNoteById_owner hfind hown
    have hne : (note.ownerId != userId) = false := by simpa using hown
    refine ⟨?_, ?_, ?_, ?_⟩
    · intro h1
      have hres : deleteNote db noteId userId failsAt =
          { err := some "Failed to delete note: Database error", db := db, steps := [] } := by
        simp [deleteNote, hg, hne, h1]
      rw [hres]
      exact ⟨rfl, rfl, rfl⟩
    · intro h1 h2
      have hres : deleteNote db noteId userId failsAt =
          { err := some "Failed to delete note: Database error",
            db := { db with revisions := db.revisions.filter (fun r => !(r.noteId == noteId)) },
            steps := [CascadeStep.revisions] } := by
        simp [deleteNote, hg, hne, h1, h2]
      rw [hres]
      refine ⟨rfl, rfl, ?_, rfl, ?_⟩
      · exact filter_not_filter db.revisions (fun r => r.noteId == noteId)
      · exact hfind
    · intro h1 h2 h3
      have hres : deleteNote db noteId userId failsAt =
          { err := some "Failed to delete note: Database error",
            db := { db with
              revisions := db.revisions.filter (fun r => !(r.noteId == noteId)),
              shares := db.shares.filter (fun s => !(s.noteId == noteId)) },
            steps := [CascadeStep.revisions, CascadeStep.shares] } := by
        simp [deleteNote, hg, hne, h1, h2, h3]
      rw [hres]
      refine ⟨rfl, rfl, ?_, ?_, ?_⟩
      · exact filter_not_filter db.revisions (fun r => r.noteId == noteId)
      · exact filter_not_filter db.shares (fun s => s.noteId == noteId)
      · exact hfind
    · intro h1 h2 h3
      have hres : deleteNote db noteId userId failsAt =
          { err := none,
            db := { db with
              revisions := db.revisions.filter (fun r => !(r.noteId == noteId)),
              shares := db.shares.filter (fun s => !(s.noteId == noteId)),
              notes := db.notes.filter (fun n => !(n.id == noteId)) },
            steps := [CascadeStep.revisions, CascadeStep.shares, CascadeStep.note] } := by
        simp [deleteNote, hg, hne, h1, h2, h3]
      rw [hres]
      refine ⟨rfl, rfl, ?_, ?_, ?_⟩
      · exact filter_not_filter db.revisions (fun r => r.noteId == noteId)
      · exact filter_not_filter db.shares (fun s => s.noteId == noteId)
      · exact find?_filter_not db.notes (fun n => n.id == noteId)

/-- Concrete store for the claim C7 witness. -/
def dbC7 : DB :=
  { users := [{ id := 1, name := none, email := "a@x.com" }],
    notes := [{ id := 10, title := "T", content := "C", isArchived := false,
                ownerId := 1, version := 1 }],
    shares := [{ id := 20, noteId := 10, sharedWithId := some 2,
                 email := some "b@x.com", permission := SharePermission.read,
                 isAccepted := true, isRevoked := false, shareToken := some "tok" }],
    revisions := [{ id := 11, content := "C", version := 1, noteId := 10, userId := 1 }],
    nextId := 21 }

theorem claim7_delete_cascade_witness :
    (deleteNote dbC7 10 1 (fun _ => false)).err = none ∧
    (deleteNote dbC7 10 1 (fun _ => false)).steps =
      [CascadeStep.revisions, CascadeStep.shares, CascadeStep.note] ∧
    revisionsOfNote (deleteNote dbC7 10 1 (fun _ => false)).db 10 = [] ∧
    sharesOfNote (deleteNote dbC7 10 1 (fun _ => false)).db 10 = [] ∧
    findNote (deleteNote dbC7 10 1 (fun _ => false)).db 10 = none :=
  ((claim7_delete_cascade dbC7 10 1
      { id := 10, title := "T", content := "C", isArchived := false,
        ownerId := 1, version := 1 }
      (fun _ => false) rfl).2 rfl).2.2.2 rfl rfl rfl

/-- C8: a content-change message from a connection that is not a member
of the note room is silently ignored (no error event, no broadcast, no
persistence); from a member it is broadcast to every other member of the
room and never echoed to the sender, tagged with the sender user id and
the server timestamp, and persisted through the updateNote path exactly
when the delta supplies a (truthy) title. -/
theorem claim8_content_change_relay (senderConn uid : Nat)
    (currentRooms : List String) (roomMembers : List Nat)
    (change : ContentChange) (now : Nat) :
    (currentRooms.contains ("note:" ++ toString change.noteId) = false →
      handleContentChange senderConn (some uid) currentRooms roomMembers change now =
        { errorsToSender := [], broadcasts := [], persistCall := none }) ∧
    (currentRooms.contains ("note:" ++ toString change.noteId) = true →
      ∃ payload : ContentUpdate,
        payload.userId = uid ∧ payload.timestamp = now ∧
        payload.noteId = change.noteId ∧ payload.content = change.content ∧
        (handleContentChange senderConn (some uid) currentRooms roomMembers change now).errorsToSender
          = [] ∧
        (handleContentChange senderConn (some uid) currentRooms roomMembers change now).broadcasts =
          (roomMembers.filter (fun c => c != senderConn)).map (fun c => (c, payload)) ∧
        (∀ pr ∈ (handleContentChange senderConn (some uid) currentRooms roomMembers change now).broadcasts,
          pr.1 ≠ senderConn) ∧
        ((handleContentChange senderConn (some uid) currentRooms roomMembers change now).persistCall
            = none ↔ ¬ (∃ t, change.title = some t ∧ t ≠ "")) ∧
        (∀ t, change.title = some t → t ≠ "" →
          (handleContentChange senderConn (some uid) currentRooms roomMembers change now).persistCall =
            some (change.noteId, uid,
              { title := some t, content := some change.content, isArchived := none }))) := by
  constructor
  · intro hmem
    have hmem2 : ¬ ("note:" ++ toString change.noteId ∈ currentRooms) := by
      simpa using hmem
    unfold handleContentChange
    simp [hmem2]
  · intro hmem
    have hmem2 : "note:" ++ toString change.noteId ∈ currentRooms := by
      simpa using hmem
    refine ⟨{ noteId := change.noteId, content := change.content, title := change.title,
              cursorPosition := change.cursorPosition, userId := uid, timestamp := now },
           rfl, rfl, rfl, rfl, ?_, ?_, ?_, ?_, ?_⟩
    · unfold handleContentChange
      simp [hmem2]
    · unfold handleContentChange
      simp [hmem2]
    · intro pr hpr
      unfold handleContentChange at hpr
      simp only [List.elem_eq_mem, decide_eq_true_eq, hmem2, if_true] at hpr
      simp only [List.mem_map] at hpr
      obtain ⟨c, hc, hcpr⟩ := hpr
      have hcne := (List.mem_filter.mp hc).2
      rw [← hcpr]
      simpa using hcne
    · unfold handleContentChange
      simp only [List.elem_eq_mem, decide_eq_true_eq, hmem2, if_true]
      cases ht : change.title with
      | none => simp [truthyStr, ht]
      | some t =>
        by_cases he : t = ""
        · simp [truthyStr, ht, he]
        · simp [truthyStr, ht, he]
    · intro t ht hne
      unfold handleContentChange
      simp [hmem2, truthyStr, ht, hne]

theorem claim8_content_change_relay_witness :
    handleContentChange 100 (some 5) ["note:10"] [100, 101, 102]
        { noteId := 10, content := "C2", title := some "T", cursorPosition := none } 7 =
      { errorsToSender := [],
        broadcasts := [(101, { noteId := 10, content := "C2", title := some "T",
                               cursorPosition := none, userId := 5, timestamp := 7 }),
                       (102, { noteId := 10, content := "C2", title := some "T",
                               cursorPosition := none, userId := 5, timestamp := 7 })],
        persistCall := some (10, 5,
          { title := some "T", content := some "C2", isArchived := none }) } ∧
    handleContentChange 100 (some 5) [] [100, 101, 102]
        { noteId := 10, content := "C2", title := some "T", cursorPosition := none } 7 =
      { errorsToSender := [], broadcasts := [], persistCall := none } := by
  constructor
  · have h := (claim8_content_change_relay 100 5 ["note:10"] [100, 101, 102]
      { noteId := 10, content := "C2", title := some "T", cursorPosition := none } 7).2 rfl
    obtain ⟨payload, hu, hts, hn, hc, herr, hbr, hne, hiff, hpersist⟩ := h
    rfl
  · exact (claim8_content_change_relay 100 5 [] [100, 101, 102]
      { noteId := 10, content := "C2", title := some "T", cursorPosition := none } 7).1 rfl

theorem deliverAll_cons (ctx : SocketCtx) (e : Emission) (ems : List Emission) :
    deliverAll ctx (e :: ems) = deliver ctx e ++ deliverAll ctx ems := rfl

theorem mem_deliverAll {ctx : SocketCtx} {ems : List Emission} {e : Emission}
    (he : e ∈ ems) {x : Nat × ClientMsg} (hx : x ∈ deliver ctx e) :
    x ∈ deliverAll ctx ems := by
  induction ems with
  | nil => cases he
  | cons a t ih =>
    rw [deliverAll_cons]
    rcases List.mem_cons.mp he with h | h
    · subst h
      exact List.mem_append_left _ hx
    · exact List.mem_append_right _ (ih h)

/-- C10: a successful revokeShare on a share with a bound recipient emits
a share:updated event whose payload carries the note id, the share id,
the revoked flag and the full (revoked) share row including its recipient
email, and that emission is a server-wide io.emit, delivered to every
connected client of any socket population, regardless of room membership
or relationship to the note. -/
theorem claim10_share_revoked_broadcast (db : DB) (shareId userId : Nat)
    (share : NoteShare) (r : Nat) (db1 : DB) (ems : List Emission)
    (hfind : findShareById db shareId = some share)
    (hbound : share.sharedWithId = some r)
    (hok : revokeShare db shareId userId true = .ok (db1, ems)) :
    ∃ payload : ShareUpdatePayload,
      Emission.toAll payload ∈ ems ∧
      payload.noteId = share.noteId ∧ payload.shareId = share.id ∧
      payload.revoked = true ∧
      payload.share = { share with isRevoked := true } ∧
      payload.share.email = share.email ∧
      ∀ ctx : SocketCtx, ∀ c ∈ ctx.connectedClients,
        (c, ClientMsg.shareUpdated payload) ∈ deliverAll ctx ems := by
  unfold revokeShare at hok
  rw [hfind] at hok
  split at hok
  · exact absurd hok (by simp)
  case _ ln hln =>
    have hshare : ln = share := (Option.some_inj.mp hln).symm
    subst hshare
    split at hok
    · exact absurd hok (by simp)
    case _ lnote hg =>
      split at hok
      · exact absurd hok (by simp)
      case _ howner =>
        rw [hbound] at hok
        simp only [if_true, Except.ok.injEq, Prod.mk.injEq] at hok
        obtain ⟨_, hems⟩ := hok
        refine ⟨{ noteId := ln.noteId, shareId := ln.id, revoked := true,
                  share := { ln with isRevoked := true },
                  shareNoteTitle := lnote.note.title }, ?_, rfl, rfl, rfl, rfl, rfl, ?_⟩
        · rw [← hems]
          simp [hbound]
        · intro ctx c hc
          have hmem : Emission.toAll
              { noteId := ln.noteId, shareId := ln.id, revoked := true,
                share := { ln with isRevoked := true },
                shareNoteTitle := lnote.note.title } ∈ ems := by
            rw [← hems]
            simp [hbound]
          refine mem_deliverAll hmem ?_
          show (c, _) ∈ ctx.connectedClients.map _
          exact List.mem_map.mpr ⟨c, hc, rfl⟩

/-- Concrete store for the claim C10 witness. -/
def dbC10 : DB :=
  { users := [{ id := 1, name := none, email := "a@x.com" },
              { id := 2, name := none, email := "b@x.com" }],
    notes := [{ id := 10, title := "T", content := "C", isArchived := false,
                ownerId := 1, version := 1 }],
    shares := [{ id := 20, noteId := 10, sharedWithId := some 2,
                 email := some "b@x.com", permission := SharePermission.read,
                 isAccepted := true, isRevoked := false, shareToken := some "tok" }],
    revisions := [], nextId := 21 }

theorem claim10_share_revoked_broadcast_witness :
    ∃ payload : ShareUpdatePayload,
      Emission.toAll payload ∈
        [Emission.toUserRoom 2 "Access to a shared note has been revoked",
         Emission.toAll
           { noteId := 10, shareId := 20, revoked := true,
             share := { id := 20, noteId := 10, sharedWithId := some 2,
                        email := some "b@x.com", permission := SharePermission.read,
                        isAccepted := true, isRevoked := true, shareToken := some "tok" },
             shareNoteTitle := "T" },
         Emission.toUserRoom 1 "Share was revoked"] ∧
      payload.noteId = 10 ∧ payload.shareId = 20 ∧
      payload.revoked = true ∧
      payload.share =
        { id := 20, noteId := 10, sharedWithId := some 2,
          email := some "b@x.com", permission := SharePermission.read,
          isAccepted := true, isRevoked := true, shareToken := some "tok" } ∧
      payload.share.email = some "b@x.com" ∧
      ∀ ctx : SocketCtx, ∀ c ∈ ctx.connectedClients,
        (c, ClientMsg.shareUpdated payload) ∈
          deliverAll ctx
            [Emission.toUserRoom 2 "Access to a shared note has been revoked",
             Emission.toAll
               { noteId := 10, shareId := 20, revoked := true,
                 share := { id := 20, noteId := 10, sharedWithId := some 2,
                            email := some "b@x.com", permission := SharePermission.read,
                            isAccepted := true, isRevoked := true, shareToken := some "tok" },
                 shareNoteTitle := "T" },
             Emission.toUserRoom 1 "Share was revoked"] :=
  claim10_share_revoked_broadcast dbC10 20 1
    { id := 20, noteId := 10, sharedWithId := some 2,
      email := some "b@x.com", permission := SharePermission.read,
      isAccepted := true, isRevoked := false, shareToken := some "tok" }
    2 (saveShare dbC10
        { id := 20, noteId := 10, sharedWithId := some 2,
          email := some "b@x.com", permission := SharePermission.read,
          isAccepted := true, isRevoked := true, shareToken := some "tok" })
    _ rfl rfl rfl

end NoteApp
